import Mathlib

/-!
Verification of the crabroll firmware core against its specification.

The development shallowly embeds the relevant Rust sources:
* iter-step-gen/src/lib.rs - the trapezoidal step planner (Stepper, HomingMove,
  PlannedMove, ContinuousJog);
* crabroll/src/tmc2209.rs - the TMC2209 UART frame construction, CRC and
  reply parsing;
* crabroll/src/motor.rs - the jog continuation predicate of execute_jog;
* crabroll/src/mqtt.rs - the command-topic payload handling of mqtt_task.

Machine integers are modeled as Nat with explicit saturation (Rust
saturating_*) and explicit wrap-around (mod 2 ^ 32 or 2 ^ 64) where the Rust
release build wraps.  Durations of embassy-time are modeled as their tick
count (u64).  FnMut closures polled once per iterator step are modeled as
pure functions of a call counter carried in the iterator state.
-/

set_option maxHeartbeats 1000000
set_option maxRecDepth 8192

namespace Crabroll

/-- The embassy-time tick rate configured for this firmware: 1 MHz
(ticks per second). -/
def TICK_HZ : Nat := 1000000

/-- Largest u32 value. -/
def U32_MAX : Nat := 2 ^ 32 - 1

/-- Largest u64 value. -/
def U64_MAX : Nat := 2 ^ 64 - 1

/-- Rust u64 saturating_pow with exponent 3. -/
def satPow3 (p : Nat) : Nat := min (p ^ 3) U64_MAX

/-- Rust u32 saturating_pow with exponent 2. -/
def satPow2u32 (x : Nat) : Nat := min (x ^ 2) U32_MAX

/-- Rust u64 saturating_add. -/
def satAdd64 (a b : Nat) : Nat := min (a + b) U64_MAX

/-- embassy-time Duration::from_hz, with the Duration modeled as its tick
count: one tick when hz is at least the tick rate, otherwise the rounded
quotient (TICK_HZ + hz / 2) / hz. -/
def durationFromHz (hz : Nat) : Nat :=
  if TICK_HZ ≤ hz then 1 else (TICK_HZ + hz / 2) / hz

/-- iter-step-gen StepperError. -/
inductive StepperError
  | MoveOutOfBounds
  | NotHomed
  deriving DecidableEq, Repr

/-- iter-step-gen Direction. -/
inductive Direction
  | Cw
  | Ccw
  deriving DecidableEq, Repr

/-- Direction::opposite. -/
def Direction.opposite : Direction → Direction
  | .Cw => .Ccw
  | .Ccw => .Cw

/-- iter-step-gen Stepper.  travel_limit, max_speed, max_accel are NonZeroU32
in the source; the positivity is carried as hypotheses of the theorems.
curent_pos [sic] keeps the source's spelling.  Durations (cruise_delay,
inital_delay [sic]) are tick counts. -/
structure Stepper where
  travel_limit : Nat
  max_speed : Nat
  max_accel : Nat
  start_vel : Nat
  dir_to_home : Direction
  curent_pos : Option Nat
  max_stopping_distance : Nat
  cruise_delay : Nat
  accel_divisor : Nat
  inital_delay : Nat
  deriving Repr, DecidableEq

/-- Stepper::compute_accel_divisor: TICK_HZ.pow(2) / max_accel (u64). -/
def Stepper.compute_accel_divisor (max_accel : Nat) : Nat :=
  TICK_HZ ^ 2 / max_accel

/-- Stepper::compute_inital_delay:
TICK_HZ / ((start_vel as u64).pow(2) + 2 * max_accel).isqrt().
Both operands fit in u64 for u32 inputs, so no wrap-around is modeled;
u64::isqrt is the floor square root, Nat.sqrt. -/
def Stepper.compute_inital_delay (start_vel max_accel : Nat) : Nat :=
  TICK_HZ / Nat.sqrt (start_vel ^ 2 + 2 * max_accel)

/-- Stepper::compute_max_stopping_distance:
(max_speed.saturating_pow(2).saturating_sub(start_vel.saturating_pow(2)))
/ (2 * max_accel), all in u32.  The product 2 * max_accel wraps mod 2 ^ 32 in
a release build (and the quotient is u32-division, modeled by Nat division;
for 2 * max_accel ≥ 2 ^ 32 the source would wrap, and for max_accel = 2 ^ 31
it would divide by zero and panic - the well-formedness hypotheses of the
theorems exclude that). -/
def Stepper.compute_max_stopping_distance (max_speed start_vel max_accel : Nat) : Nat :=
  (satPow2u32 max_speed - satPow2u32 start_vel) / (2 * max_accel % 2 ^ 32)

/-- Stepper::compute_cruise_delay: Duration::from_hz(max_speed). -/
def Stepper.compute_cruise_delay (max_speed : Nat) : Nat :=
  durationFromHz max_speed

/-- Stepper::new. -/
def Stepper.new (travel_limit max_speed max_accel start_vel : Nat)
    (dir_to_home : Direction) : Stepper :=
  { travel_limit := travel_limit
    max_speed := max_speed
    max_accel := max_accel
    start_vel := start_vel
    dir_to_home := dir_to_home
    curent_pos := none
    max_stopping_distance :=
      Stepper.compute_max_stopping_distance max_speed start_vel max_accel
    cruise_delay := Stepper.compute_cruise_delay max_speed
    accel_divisor := Stepper.compute_accel_divisor max_accel
    inital_delay := Stepper.compute_inital_delay start_vel max_accel }

/-- Stepper::update_pos_one_step: saturating_add_signed of +1 when dir equals
dir_to_home and of -1 otherwise (u32 saturation at both ends).  The source
unwraps curent_pos with expect; every plan constructor that reaches this call
guarantees the position is known, so the none branch is never exercised by
the theorems below. -/
def Stepper.update_pos_one_step (s : Stepper) (dir : Direction) : Stepper :=
  { s with curent_pos :=
      match s.curent_pos with
      | some p => some (if dir = s.dir_to_home then min (p + 1) U32_MAX else p - 1)
      | none => none }

/-- A stepper whose position has become known (the source reaches such a
state through a completed homing move, which writes curent_pos = Some 0, and
subsequent step updates).  All other fields are exactly those of
Stepper::new. -/
def homedStepper (travel_limit max_speed max_accel start_vel : Nat)
    (dir_to_home : Direction) (pos : Nat) : Stepper :=
  { Stepper.new travel_limit max_speed max_accel start_vel dir_to_home with
      curent_pos := some pos }

/-- iter-step-gen HomingMove.  The FnMut endstop closure is modeled as a pure
function of the number of times it has been called, together with the call
counter. -/
structure HomingMove where
  stepper : Stepper
  delay : Nat
  endstop_fn : Nat → Bool
  calls : Nat
  steps_moved : Nat

/-- Stepper::homing_move: constant delay TICK_HZ / start_vel, direction
dir_to_home. -/
def Stepper.homing_move (s : Stepper) (endstop_fn : Nat → Bool) :
    HomingMove × Direction :=
  ({ stepper := s
     delay := TICK_HZ / s.start_vel
     endstop_fn := endstop_fn
     calls := 0
     steps_moved := 0 },
   s.dir_to_home)

/-- HomingMove::next: evaluate the endstop; when it fires set the position to
0 and stop, otherwise count the step and emit the constant delay. -/
def HomingMove.next (h : HomingMove) : Option Nat × HomingMove :=
  let fired := h.endstop_fn h.calls
  let h1 : HomingMove := { h with calls := h.calls + 1 }
  if fired then
    (none, { h1 with stepper := { h1.stepper with curent_pos := some 0 } })
  else
    (some h1.delay, { h1 with steps_moved := h1.steps_moved + 1 })

/-- Iterated HomingMove state after n calls to next. -/
def HomingMove.stepN (h : HomingMove) : Nat → HomingMove
  | 0 => h
  | n + 1 => (h.stepN n).next.2

/-- The value emitted by the (n+1)-st call to HomingMove::next. -/
def HomingMove.emitAt (h : HomingMove) (n : Nat) : Option Nat :=
  (h.stepN n).next.1

/-- iter-step-gen Phase. -/
inductive Phase
  | Accelerate
  | Cruise
  | Decelerate
  deriving DecidableEq, Repr

/-- iter-step-gen PlannedMove.  prev_delay is the Duration in ticks
(initially Duration::MAX = U64_MAX ticks). -/
structure PlannedMove where
  stepper : Stepper
  phase : Phase
  prev_delay : Nat
  dir : Direction
  stopping_distance : Nat
  steps_to_travel : Nat
  rem : Nat
  deriving Repr, DecidableEq

/-- Stepper::planned_move.  abs_diff is max - min on Nat; div_ceil(2) is
(d + 1) / 2 (no u32 overflow: d + 1 ≤ 2 ^ 32 and the quotient fits);
max_stopping_distance * 2 cannot overflow u32 because max_stopping_distance
is a quotient by an even nonzero u32 divisor, hence at most 2 ^ 31 - 1. -/
def Stepper.planned_move (s : Stepper) (target_pos : Nat) :
    Except StepperError (PlannedMove × Direction) :=
  match s.curent_pos with
  | none => .error .NotHomed
  | some current_pos =>
    if s.travel_limit < target_pos then .error .MoveOutOfBounds
    else
      let move_distance := max current_pos target_pos - min current_pos target_pos
      let stopping_distance :=
        (if s.max_stopping_distance * 2 < move_distance then s.max_stopping_distance
         else (move_distance + 1) / 2) + 2
      let dir := if current_pos < target_pos then s.dir_to_home else s.dir_to_home.opposite
      .ok ({ stepper := s
             phase := .Accelerate
             prev_delay := U64_MAX
             dir := dir
             stopping_distance := stopping_distance
             steps_to_travel := move_distance
             rem := 0 },
           dir)

/-- PlannedMove::next (Iterator::next).  steps_to_travel is a u32; the
unguarded decrement in the Cruise arm is modeled with the wrap-around of a
release build, (s + 2 ^ 32 - 1) % 2 ^ 32 (a debug build would panic there
when s = 0).  The u64 expression p.saturating_pow(3) + rem wraps mod 2 ^ 64.
saturating_sub is Nat subtraction; saturating_add is satAdd64. -/
def PlannedMove.next (m : PlannedMove) : Option Nat × PlannedMove :=
  match m.phase with
  | .Accelerate =>
    if m.steps_to_travel = 0 then (none, m)
    else
      let m1 : PlannedMove :=
        { m with steps_to_travel := m.steps_to_travel - 1
                 stepper := m.stepper.update_pos_one_step m.dir }
      let m2 : PlannedMove :=
        if m1.steps_to_travel ≤ m1.stopping_distance then
          { m1 with phase := .Decelerate, rem := 0 }
        else m1
      let p := m2.prev_delay
      let pdividend := (satPow3 p + m2.rem) % 2 ^ 64
      let pdiff := pdividend / m2.stepper.accel_divisor
      let m3 : PlannedMove := { m2 with rem := pdividend % m2.stepper.accel_divisor }
      let newDelay := min (max (p - pdiff) m3.stepper.cruise_delay) m3.stepper.inital_delay
      let m4 : PlannedMove := { m3 with prev_delay := newDelay }
      let m5 : PlannedMove :=
        if newDelay = m4.stepper.cruise_delay then { m4 with phase := .Cruise } else m4
      (some newDelay, m5)
  | .Cruise =>
    let m1 : PlannedMove :=
      { m with steps_to_travel := (m.steps_to_travel + (2 ^ 32 - 1)) % 2 ^ 32
               stepper := m.stepper.update_pos_one_step m.dir }
    let m2 : PlannedMove :=
      if m1.steps_to_travel ≤ m1.stopping_distance then
        { m1 with phase := .Decelerate, rem := 0 }
      else m1
    (some m2.prev_delay, m2)
  | .Decelerate =>
    if m.steps_to_travel = 0 then (none, m)
    else
      let m1 : PlannedMove :=
        { m with steps_to_travel := m.steps_to_travel - 1
                 stepper := m.stepper.update_pos_one_step m.dir }
      let p := m1.prev_delay
      let pdividend := (satPow3 p + m1.rem) % 2 ^ 64
      let pdiff := pdividend / m1.stepper.accel_divisor
      let m2 : PlannedMove := { m1 with rem := pdividend % m1.stepper.accel_divisor }
      let newDelay := min (max (satAdd64 p pdiff) m2.stepper.cruise_delay) m2.stepper.inital_delay
      let m3 : PlannedMove := { m2 with prev_delay := newDelay }
      (some newDelay, m3)

/-- Iterated PlannedMove state after n calls to next. -/
def PlannedMove.stepN (m : PlannedMove) : Nat → PlannedMove
  | 0 => m
  | n + 1 => (m.stepN n).next.2

/-- The value emitted by the (n+1)-st call to PlannedMove::next. -/
def PlannedMove.emitAt (m : PlannedMove) (n : Nat) : Option Nat :=
  (m.stepN n).next.1

/-- iter-step-gen ContinuousJog.  The FnMut continuation closure is modeled
as a pure function of its call counter. -/
structure ContinuousJog where
  stepper : Stepper
  delay : Nat
  dir : Direction
  continue_fn : Nat → Bool
  calls : Nat

/-- Stepper::continuous_jog: requires a known position, constant delay
TICK_HZ / start_vel. -/
def Stepper.continuous_jog (s : Stepper) (continue_fn : Nat → Bool)
    (dir : Direction) : Except StepperError (ContinuousJog × Direction) :=
  match s.curent_pos with
  | some _ =>
    .ok ({ stepper := s
           delay := TICK_HZ / s.start_vel
           continue_fn := continue_fn
           dir := dir
           calls := 0 },
         dir)
  | none => .error .NotHomed

/-- ContinuousJog::next: evaluate the continuation predicate; while it holds,
advance the position one step (no travel-limit comparison anywhere) and emit
the constant delay. -/
def ContinuousJog.next (j : ContinuousJog) : Option Nat × ContinuousJog :=
  let go := j.continue_fn j.calls
  let j1 : ContinuousJog := { j with calls := j.calls + 1 }
  if go then
    (some j1.delay, { j1 with stepper := j1.stepper.update_pos_one_step j1.dir })
  else
    (none, j1)

/-- Iterated ContinuousJog state after n calls to next. -/
def ContinuousJog.stepN (j : ContinuousJog) : Nat → ContinuousJog
  | 0 => j
  | n + 1 => (j.stepN n).next.2

/-! ## The motor dispatcher layer (crabroll/src/motor.rs) -/

/-- The Direction of the iter-step-gen revision crabroll links against
(variants ToHome / AwayFromHome). -/
inductive MDirection
  | ToHome
  | AwayFromHome
  deriving DecidableEq, Repr

/-- crabroll Command (main.rs / motor.rs / mqtt.rs revision in which
MoveToPos carries the i8 parsed by mqtt_task). -/
inductive Command
  | Home
  | StartJog (dir : MDirection)
  | StopJog
  | SetBottom
  | MoveToPos (percent : Int)
  deriving DecidableEq, Repr

/-- The continuation predicate execute_jog closes over LAST_COMMAND
(motor.rs lines 182-186): not (try_take().is_some_and(c == StopJog)).
Its argument is the Option the single poll of LAST_COMMAND.try_take()
returned. -/
def jog_continue_pred (taken : Option Command) : Bool :=
  ! (match taken with
     | some c => decide (c = Command.StopJog)
     | none => false)

/-- The jog plan execute_jog constructs: continuous_jog with the
LAST_COMMAND predicate, the signal modeled as the stream of values try_take
yields on successive polls.  The iter-step-gen revision crabroll links
against is not among the sources; modelled from the spec: section 4.1.3, its
ContinuousJog evaluates the continuation predicate before each emitted step
and terminates when it is false, exactly as the in-tree revision embedded
above, which is therefore reused. -/
def execute_jog_plan (s : Stepper) (takes : Nat → Option Command)
    (dir : Direction) : Except StepperError (ContinuousJog × Direction) :=
  s.continuous_jog (fun k => jog_continue_pred (takes k)) dir

/-! ## The TMC2209 UART driver (crabroll/src/tmc2209.rs) -/

/-- The non-generic variants of tmc2209.rs UartError reachable from the
frame parser (TxError / RxError carry the transport's error type and cannot
arise in the pure parsing step). -/
inductive UartErr
  | CrcMismatch
  | UnexpectedEos
  | UnpopulatedAdress
  | IncorrectIfcnt
  | UnexpectedAdress (expected got : Nat)
  deriving DecidableEq, Repr

instance {ε α : Type} [DecidableEq ε] [DecidableEq α] : DecidableEq (Except ε α) :=
  fun a b =>
    match a, b with
    | .ok x, .ok y =>
      if h : x = y then .isTrue (by rw [h])
      else .isFalse (by intro hc; cases hc; exact h rfl)
    | .error x, .error y =>
      if h : x = y then .isTrue (by rw [h])
      else .isFalse (by intro hc; cases hc; exact h rfl)
    | .ok _, .error _ => .isFalse (by intro hc; cases hc)
    | .error _, .ok _ => .isFalse (by intro hc; cases hc)

/-- One bit of Tmc2209::calc_uart_crc's inner loop: u8 state crc, tested
against bit i of the current byte; the u8 shift left truncates mod 256. -/
def crc_bit_update (byte : Nat) (crc : Nat) (i : Nat) : Nat :=
  if (crc >>> 7) ^^^ ((byte >>> i) &&& 1) ≠ 0 then
    ((crc <<< 1) % 256) ^^^ 0x07
  else
    (crc <<< 1) % 256

/-- Tmc2209::calc_uart_crc: initial value 0, bytes in order, bits LSB-first. -/
def calc_uart_crc (message : List Nat) : Nat :=
  message.foldl (fun crc byte => (List.range 8).foldl (crc_bit_update byte) crc) 0

/-- u32::to_be_bytes, most significant byte first. -/
def u32_to_be_bytes (data : Nat) : List Nat :=
  [data / 2 ^ 24 % 256, data / 2 ^ 16 % 256, data / 2 ^ 8 % 256, data % 256]

/-- u32::from_be_bytes over a 4-byte list. -/
def u32_from_be_bytes (bytes : List Nat) : Nat :=
  bytes.foldl (fun acc b => acc * 256 + b) 0

/-- Tmc2209::construct_write_uart_message: sync 0b10100101, slave address,
register with the write bit 0x80 set, the four big-endian payload bytes, and
the CRC of those seven bytes. -/
def construct_write_uart_message (slave_address register data : Nat) : List Nat :=
  let body := [0b10100101, slave_address, register ||| 0x80] ++ u32_to_be_bytes data
  body ++ [calc_uart_crc body]

/-- Tmc2209::construct_read_uart_message. -/
def construct_read_uart_message (slave_address register : Nat) : List Nat :=
  let body := [0b10100101, slave_address &&& 0x7F, register]
  body ++ [calc_uart_crc body]

/-- buffer[..len].windows(2).position(|b| b == [0x05, 0xff]): index of the
first occurrence of the reply preamble. -/
def find_preamble : List Nat → Option Nat
  | b0 :: b1 :: rest =>
    if b0 = 0x05 ∧ b1 = 0xff then some 0
    else (find_preamble (b1 :: rest)).map (· + 1)
  | _ => none

/-- One iteration of the Tmc2209::read_register receive loop (tmc2209.rs
lines 107-136) after a read filled buffer (length = the bytes read, at most
8): scan for the preamble, align it to the buffer start, complete the buffer
to 8 bytes from the subsequent stream bytes (read_exact), then validate the
returned register address (buffer[2] against register & 0x7F) and the CRC of
the first 7 bytes against byte 7, returning the big-endian u32 of bytes
3..7.  none models the loop reading again because no preamble was found. -/
def process_read_buffer (register : Nat) (buffer : List Nat) (stream : List Nat) :
    Option (Except UartErr Nat) :=
  match find_preamble buffer with
  | none => none
  | some message_start =>
    let fragment := buffer.drop message_start
    if stream.length < 8 - fragment.length then some (.error .UnexpectedEos)
    else
      let msg := fragment ++ stream.take (8 - fragment.length)
      let returned_address := msg.getD 2 0
      if returned_address ≠ register &&& 0x7F then
        some (.error (.UnexpectedAdress register returned_address))
      else if calc_uart_crc (msg.take 7) = msg.getD 7 0 then
        some (.ok (u32_from_be_bytes ((msg.drop 3).take 4)))
      else
        some (.error .CrcMismatch)

/-! ## The MQTT command ingress (crabroll/src/mqtt.rs) -/

/-- ASCII decimal digit value. -/
def decDigit? (b : Nat) : Option Nat :=
  if 48 ≤ b ∧ b ≤ 57 then some (b - 48) else none

/-- Decimal value of a nonempty all-digit byte string. -/
def decValue (bs : List Nat) : Option Nat :=
  if bs = [] then none
  else
    bs.foldl
      (fun acc b =>
        match acc, decDigit? b with
        | some v, some d => some (v * 10 + d)
        | _, _ => none)
      (some 0)

/-- str::parse::<i8> on a byte string: an optional sign (43 is the plus
sign, 45 the minus sign) followed by at least one decimal digit, the value
within the i8 range (checked arithmetic in Rust rejects anything beyond
127 resp. -128).  The empty string is rejected. -/
def parse_i8 (bs : List Nat) : Option Int :=
  match bs with
  | [] => none
  | b :: rest =>
    if b = 43 then
      (decValue rest).bind fun v => if v ≤ 127 then some (v : Int) else none
    else if b = 45 then
      (decValue rest).bind fun v => if v ≤ 128 then some (-(v : Int)) else none
    else
      (decValue (b :: rest)).bind fun v => if v ≤ 127 then some (v : Int) else none

/-- Whether a byte is a UTF-8 continuation byte (0x80..0xBF). -/
def utf8_cont (b : Nat) : Bool := 0x80 ≤ b ∧ b ≤ 0xBF

/-- str::from_utf8 validity of a byte string (RFC 3629 well-formedness, the
exact shortest-form/surrogate-excluding table Rust's core validator
implements). -/
def utf8_valid : List Nat → Bool
  | [] => true
  | b :: rest =>
    if b ≤ 0x7F then utf8_valid rest
    else if 0xC2 ≤ b ∧ b ≤ 0xDF then
      match rest with
      | c1 :: rest2 => utf8_cont c1 && utf8_valid rest2
      | [] => false
    else if b = 0xE0 then
      match rest with
      | c1 :: c2 :: rest2 =>
        (decide (0xA0 ≤ c1 ∧ c1 ≤ 0xBF)) && utf8_cont c2 && utf8_valid rest2
      | _ => false
    else if (0xE1 ≤ b ∧ b ≤ 0xEC) ∨ b = 0xEE ∨ b = 0xEF then
      match rest with
      | c1 :: c2 :: rest2 => utf8_cont c1 && utf8_cont c2 && utf8_valid rest2
      | _ => false
    else if b = 0xED then
      match rest with
      | c1 :: c2 :: rest2 =>
        (decide (0x80 ≤ c1 ∧ c1 ≤ 0x9F)) && utf8_cont c2 && utf8_valid rest2
      | _ => false
    else if b = 0xF0 then
      match rest with
      | c1 :: c2 :: c3 :: rest2 =>
        (decide (0x90 ≤ c1 ∧ c1 ≤ 0xBF)) && utf8_cont c2 && utf8_cont c3 && utf8_valid rest2
      | _ => false
    else if 0xF1 ≤ b ∧ b ≤ 0xF3 then
      match rest with
      | c1 :: c2 :: c3 :: rest2 =>
        utf8_cont c1 && utf8_cont c2 && utf8_cont c3 && utf8_valid rest2
      | _ => false
    else if b = 0xF4 then
      match rest with
      | c1 :: c2 :: c3 :: rest2 =>
        (decide (0x80 ≤ c1 ∧ c1 ≤ 0x8F)) && utf8_cont c2 && utf8_cont c3 && utf8_valid rest2
      | _ => false
    else false

/-- The severity carried by ERROR_SIGNAL in the crabroll revision motor.rs
links against (Soft / Hard). -/
inductive ErrorSeverity
  | Soft
  | Hard
  deriving DecidableEq, Repr

/-- The observable effects of mqtt_task handling the payload of one publish
received on COMMAND_TOPIC (mqtt.rs lines 182-193): the value, if any,
signaled into LAST_COMMAND; whether the handler breaks out of the session
loop (after which the task aborts the connection and the outer loop
reconnects); and the severity, if any, signaled into ERROR_SIGNAL.  The
error_signal component is none on every path of the handler below because
mqtt_task contains no ERROR_SIGNAL call at all (its crate imports are
CURRENT_POS, Command and LAST_COMMAND only, mqtt.rs line 21): an invalid
payload is logged with the defmt error macro and the session loop is
broken, but no error signal of any severity is raised. -/
structure MqttPublishEffect where
  signaled_command : Option Command
  session_aborted : Bool
  error_signal : Option ErrorSeverity
  deriving DecidableEq, Repr

/-- The command-topic payload handler of mqtt_task. -/
def mqtt_handle_payload (payload : List Nat) : MqttPublishEffect :=
  if utf8_valid payload then
    match parse_i8 payload with
    | some n =>
      { signaled_command := some (.MoveToPos n)
        session_aborted := false
        error_signal := none }
    | none =>
      { signaled_command := none
        session_aborted := true
        error_signal := none }
  else
    { signaled_command := none
      session_aborted := true
      error_signal := none }

/-! ## Proof-support definitions -/

/-- Well-formedness of a stepper configuration: the NonZeroU32 parameters are
positive and within u32 range, start_vel is a u32, and 2 * max_accel stays
within u32 (otherwise Stepper::new itself wraps or divides by zero in
compute_max_stopping_distance). -/
def WFConfig (travel_limit max_speed max_accel start_vel : Nat) : Prop :=
  1 ≤ travel_limit ∧ travel_limit ≤ U32_MAX ∧
  1 ≤ max_speed ∧ max_speed ≤ U32_MAX ∧
  1 ≤ max_accel ∧ 2 * max_accel ≤ U32_MAX ∧
  start_vel ≤ U32_MAX

instance (a b c d : Nat) : Decidable (WFConfig a b c d) := by
  unfold WFConfig
  infer_instance

/-- The inductive invariant of the PlannedMove iterator, relative to the
stepper B the plan was constructed from, the target t, the plan's
stopping_distance sd, total distance dist and direction dir0:
configuration fields are untouched, the position tracks the remaining step
count against the target, a state still accelerating is either the initial
state or strictly above the deceleration window, and the Cruise phase always
holds at least one remaining step with prev_delay pinned to cruise_delay. -/
def PMInv (B : Stepper) (t sd dist : Nat) (dir0 : Direction) (m : PlannedMove) : Prop :=
  m.dir = dir0 ∧
  m.stopping_distance = sd ∧
  m.steps_to_travel ≤ dist ∧
  (∃ q, m.stepper = { B with curent_pos := some q } ∧
    (if dir0 = B.dir_to_home then m.steps_to_travel ≤ t ∧ q = t - m.steps_to_travel
     else q = t + m.steps_to_travel)) ∧
  (m.phase = .Accelerate →
    (m.prev_delay = U64_MAX ∧ m.rem = 0 ∧ m.steps_to_travel = dist) ∨
      sd < m.steps_to_travel) ∧
  (m.phase = .Cruise → 1 ≤ m.steps_to_travel ∧ m.prev_delay = B.cruise_delay)

/-- The delay-envelope invariant for claim C2: the configuration delays are
untouched and the Cruise phase carries prev_delay = cruise_delay. -/
def PMDelayInv (B : Stepper) (m : PlannedMove) : Prop :=
  m.stepper.cruise_delay = B.cruise_delay ∧
  m.stepper.inital_delay = B.inital_delay ∧
  m.stepper.accel_divisor = B.accel_divisor ∧
  (m.phase = .Cruise → m.prev_delay = B.cruise_delay)

/-- The validation of an aligned 8-byte reply, as the (amended) claim C6
describes it: the returned register address sits at offset 2 of the aligned
reply; the CRC of bytes 0..7 must match byte 7; the payload is the
big-endian u32 at bytes 3..7. -/
def reply_validate (register : Nat) (msg : List Nat) : Except UartErr Nat :=
  if msg.getD 2 0 ≠ register &&& 0x7F then
    .error (.UnexpectedAdress register (msg.getD 2 0))
  else if calc_uart_crc (msg.take 7) = msg.getD 7 0 then
    .ok (u32_from_be_bytes ((msg.drop 3).take 4))
  else
    .error .CrcMismatch

/-- One CRC bit as the spec's pseudocode states it, for claim C7:
crc = ((crc shl 1) xor 0x07) if ((crc shr 7) xor ((byte shr i) and 1)) else
(crc shl 1), the state truncated to a byte. -/
def spec_crc_bit (byte i crc : Nat) : Nat :=
  if (crc >>> 7) ^^^ ((byte >>> i) &&& 1) ≠ 0 then
    ((crc <<< 1) % 256) ^^^ 0x07
  else
    (crc <<< 1) % 256

/-- The spec's inner CRC loop, bit indices i = 0..7 in order (fuel counts
the bits still to process, so the index is 8 - fuel). -/
def spec_crc_bits (byte crc : Nat) : Nat → Nat
  | 0 => crc
  | fuel + 1 => spec_crc_bits byte (spec_crc_bit byte (8 - (fuel + 1)) crc) fuel

/-- The spec's outer CRC loop over the message bytes. -/
def spec_crc_bytes : List Nat → Nat → Nat
  | [], crc => crc
  | b :: rest, crc => spec_crc_bytes rest (spec_crc_bits b crc 8)

/-- The CRC as the spec describes it: polynomial 0x07, initial value 0,
each byte processed LSB-first. -/
def spec_crc (msg : List Nat) : Nat :=
  spec_crc_bytes msg 0

/-- The write frame as claim C7 states it: the 8 bytes
[0xA5, slave_addr, register or 0x80, d3, d2, d1, d0, crc] where d3..d0 are
the big-endian bytes of the 32-bit payload and crc is the spec CRC of the
first seven bytes. -/
def spec_write_frame (slave_address register data : Nat) : List Nat :=
  let head := [0xA5, slave_address, register ||| 0x80,
               data / 2 ^ 24 % 256, data / 2 ^ 16 % 256, data / 2 ^ 8 % 256, data % 256]
  head ++ [spec_crc head]

/-! ## Theorems -/

theorem Direction.opposite_ne (d : Direction) : d.opposite ≠ d := by
  cases d <;> simp [Direction.opposite]

/-- Claim C3: planned_move fails with NotHomed when the position is unknown,
and with MoveOutOfBounds when the position is known and the target exceeds
the travel limit.  The embedding of planned_move is a pure function of the
stepper whose error branches return only the error value, mirroring the
source, whose error arms perform no write to the stepper, emit no delay
and produce no iterator. -/
theorem c3_planned_move_errors (s : Stepper) (t : Nat) :
    (s.curent_pos = none → s.planned_move t = .error .NotHomed) ∧
    (∀ p, s.curent_pos = some p → s.travel_limit < t →
      s.planned_move t = .error .MoveOutOfBounds) := by
  constructor
  · intro h
    simp [Stepper.planned_move, h]
  · intro p h ht
    simp [Stepper.planned_move, h, ht]

theorem c3_planned_move_errors_witness :
    (Stepper.new 2048 2048 225 64 .Cw).planned_move 100 = .error .NotHomed ∧
    (homedStepper 2048 2048 225 64 .Cw 0).planned_move 2049 = .error .MoveOutOfBounds :=
  ⟨(c3_planned_move_errors (Stepper.new 2048 2048 225 64 .Cw) 100).1 rfl,
   (c3_planned_move_errors (homedStepper 2048 2048 225 64 .Cw 0) 2049).2 0 rfl (by decide)⟩

/-- The homing iterator after j calls none of which saw the endstop fire:
only the call counter and the step counter advanced. -/
theorem homing_stepN_eq (s : Stepper) (f : Nat → Bool) (j : Nat)
    (h : ∀ i, i < j → f i = false) :
    ((s.homing_move f).1).stepN j =
      { stepper := s, delay := TICK_HZ / s.start_vel, endstop_fn := f,
        calls := j, steps_moved := j } := by
  induction j with
  | zero => rfl
  | succ n ih =>
    have hn : ((s.homing_move f).1).stepN n =
        { stepper := s, delay := TICK_HZ / s.start_vel, endstop_fn := f,
          calls := n, steps_moved := n } :=
      ih (fun i hi => h i (Nat.lt_succ_of_lt hi))
    simp [HomingMove.stepN, hn, HomingMove.next, h n (Nat.lt_succ_self n)]

/-- Claim C4: for every endstop predicate (modeled as a pure function of the
call number) firing first at call k, homing_move emits the constant delay
TICK_HZ / start_vel on each of the first k calls, leaves the position
untouched throughout these calls, terminates exactly at call k + 1, and only
at that termination sets the position to 0; steps_moved records the k
emitted steps. -/
theorem c4_homing_move (s : Stepper) (f : Nat → Bool) (k : Nat)
    (hfirst : ∀ j, j < k → f j = false) (hk : f k = true) :
    (∀ j, j < k → ((s.homing_move f).1).emitAt j = some (TICK_HZ / s.start_vel)) ∧
    (∀ j, j ≤ k → (((s.homing_move f).1).stepN j).stepper.curent_pos = s.curent_pos) ∧
    ((s.homing_move f).1).emitAt k = none ∧
    (((s.homing_move f).1).stepN (k + 1)).stepper.curent_pos = some 0 ∧
    (((s.homing_move f).1).stepN (k + 1)).steps_moved = k ∧
    (s.homing_move f).2 = s.dir_to_home := by
  refine ⟨?_, ?_, ?_, ?_, ?_, rfl⟩
  · intro j hj
    rw [HomingMove.emitAt, homing_stepN_eq s f j (fun i hi => hfirst i (hi.trans hj))]
    simp [HomingMove.next, hfirst j hj]
  · intro j hj
    rcases Nat.lt_or_ge j k with hlt | hge
    · rw [homing_stepN_eq s f j (fun i hi => hfirst i (hi.trans hlt))]
    · have hjk : j = k := Nat.le_antisymm hj hge
      subst hjk
      rw [homing_stepN_eq s f j hfirst]
  · rw [HomingMove.emitAt, homing_stepN_eq s f k hfirst]
    simp [HomingMove.next, hk]
  · rw [HomingMove.stepN, homing_stepN_eq s f k hfirst]
    simp [HomingMove.next, hk]
  · rw [HomingMove.stepN, homing_stepN_eq s f k hfirst]
    simp [HomingMove.next, hk]

theorem c4_homing_move_witness :
    (∀ j, j < 3 → (((Stepper.new 2048 255 64 50 .Cw).homing_move
        (fun n => decide (3 ≤ n))).1).emitAt j = some (TICK_HZ / 50)) ∧
    (∀ j, j ≤ 3 → ((((Stepper.new 2048 255 64 50 .Cw).homing_move
        (fun n => decide (3 ≤ n))).1).stepN j).stepper.curent_pos = none) ∧
    (((Stepper.new 2048 255 64 50 .Cw).homing_move
        (fun n => decide (3 ≤ n))).1).emitAt 3 = none ∧
    ((((Stepper.new 2048 255 64 50 .Cw).homing_move
        (fun n => decide (3 ≤ n))).1).stepN 4).stepper.curent_pos = some 0 ∧
    ((((Stepper.new 2048 255 64 50 .Cw).homing_move
        (fun n => decide (3 ≤ n))).1).stepN 4).steps_moved = 3 ∧
    ((Stepper.new 2048 255 64 50 .Cw).homing_move (fun n => decide (3 ≤ n))).2 = .Cw :=
  c4_homing_move (Stepper.new 2048 255 64 50 .Cw) (fun n => decide (3 ≤ n)) 3
    (by decide) (by decide)

/-- Claim C10: every single-step position update saturates: one step adds 1
saturating at U32_MAX when the direction equals dir_to_home and subtracts 1
saturating at 0 otherwise, so stepping in the position-decreasing direction
at position 0 leaves the position 0 and the counter never underflows; and a
continuous jog applies exactly this update with no travel-limit check: at any
known position, including the travel limit itself, the jog still emits a
step and updates the position. -/
theorem c10_saturating_updates (s : Stepper) (p : Nat) (dir : Direction)
    (hp : s.curent_pos = some p) :
    ((s.update_pos_one_step dir).curent_pos =
      some (if dir = s.dir_to_home then min (p + 1) U32_MAX else p - 1)) ∧
    (dir ≠ s.dir_to_home → p = 0 → (s.update_pos_one_step dir).curent_pos = some 0) ∧
    (∀ (f : Nat → Bool) (j : ContinuousJog) (dirR : Direction),
      s.continuous_jog f dir = .ok (j, dirR) → f 0 = true →
        j.next.1 = some (TICK_HZ / s.start_vel) ∧
        (j.next.2).stepper.curent_pos =
          some (if dir = s.dir_to_home then min (p + 1) U32_MAX else p - 1)) := by
  refine ⟨by simp [Stepper.update_pos_one_step, hp], ?_, ?_⟩
  · intro hdir hp0
    subst hp0
    simp [Stepper.update_pos_one_step, hp, hdir]
  · intro f j dirR hok hf
    have hj : j =
        { stepper := s
          delay := TICK_HZ / s.start_vel
          continue_fn := f
          dir := dir
          calls := 0 } := by
      simp [Stepper.continuous_jog, hp] at hok
      exact hok.1.symm
    subst hj
    simp [ContinuousJog.next, hf, Stepper.update_pos_one_step, hp]

theorem jog_continue_pred_eq_false (t : Option Command) :
    jog_continue_pred t = false ↔ t = some Command.StopJog := by
  cases t with
  | none => simp [jog_continue_pred]
  | some c => simp [jog_continue_pred]

/-- Iterating a jog only advances the call counter as far as the predicate
and delay are concerned. -/
theorem jog_stepN_fields (j : ContinuousJog) (n : Nat) :
    (j.stepN n).continue_fn = j.continue_fn ∧ (j.stepN n).calls = j.calls + n ∧
    (j.stepN n).delay = j.delay := by
  induction n with
  | zero => simp [ContinuousJog.stepN]
  | succ k ih =>
    obtain ⟨h1, h2, h3⟩ := ih
    simp only [ContinuousJog.stepN, ContinuousJog.next, h1, h2, h3]
    split <;> simp [Nat.add_assoc]

/-- Claim C5, amended: while a jog built by execute_jog runs, the k-th poll
of LAST_COMMAND.try_take (modeled as the stream takes) is consumed by the
continuation predicate, and the plan terminates at that step boundary
exactly when the observed value is StopJog; any other observed command (or
no command) leaves the jog emitting its constant delay. -/
theorem c5_jog_termination (s : Stepper) (takes : Nat → Option Command)
    (dir : Direction) (j : ContinuousJog) (dirR : Direction)
    (h : execute_jog_plan s takes dir = .ok (j, dirR)) (n : Nat) :
    ((j.stepN n).next.1 = none ↔ takes n = some Command.StopJog) ∧
    (takes n ≠ some Command.StopJog →
      (j.stepN n).next.1 = some (TICK_HZ / s.start_vel)) := by
  have hj : j.continue_fn = (fun k => jog_continue_pred (takes k)) ∧ j.calls = 0 ∧
      j.delay = TICK_HZ / s.start_vel := by
    unfold execute_jog_plan Stepper.continuous_jog at h
    cases hpos : s.curent_pos with
    | none => rw [hpos] at h; exact absurd h (by simp)
    | some p =>
      rw [hpos] at h
      simp only [Except.ok.injEq, Prod.mk.injEq] at h
      rw [← h.1]
      exact ⟨rfl, rfl, rfl⟩
  obtain ⟨hfn, hc0, hd⟩ := hj
  obtain ⟨h1, h2, h3⟩ := jog_stepN_fields j n
  rw [hfn] at h1
  rw [hc0] at h2
  rw [hd] at h3
  constructor
  · rw [ContinuousJog.next]
    simp only [h1, h2, Nat.zero_add]
    cases hgo : jog_continue_pred (takes n) with
    | true => simp [hgo, ← jog_continue_pred_eq_false, hgo]
    | false => simp [hgo, ← jog_continue_pred_eq_false, hgo]
  · intro hne
    have hgo : jog_continue_pred (takes n) = true := by
      cases hgo2 : jog_continue_pred (takes n) with
      | false => exact absurd ((jog_continue_pred_eq_false _).mp hgo2) hne
      | true => rfl
    rw [ContinuousJog.next]
    simp [h1, h2, h3, hgo]

/-- Claim C5, counterexample: a Home command signaled during a jog is
observed (consumed) by the continuation predicate, yet the very next call
still emits a delay - the plan does not terminate at the next step
boundary. -/
theorem c5_counterexample :
    (execute_jog_plan (homedStepper 2048 2048 225 64 .Cw 0)
        (fun _ => some Command.Home) .Cw).map (fun x => x.1.next.1) =
      .ok (some 15625) ∧
    Command.Home ≠ Command.StopJog :=
  ⟨rfl, by decide⟩

theorem c5_jog_termination_witness :
    ∃ (j : ContinuousJog) (dirR : Direction),
      execute_jog_plan (homedStepper 2048 2048 225 64 .Cw 0)
        (fun k => if k = 2 then some Command.StopJog else none) .Cw = .ok (j, dirR) ∧
      (j.stepN 2).next.1 = none ∧ (j.stepN 0).next.1 = some 15625 := by
  refine ⟨{ stepper := homedStepper 2048 2048 225 64 .Cw 0
            delay := 15625
            dir := .Cw
            continue_fn :=
              fun k => jog_continue_pred (if k = 2 then some Command.StopJog else none)
            calls := 0 }, .Cw, rfl, ?_, ?_⟩
  · exact (c5_jog_termination (homedStepper 2048 2048 225 64 .Cw 0)
      (fun k => if k = 2 then some Command.StopJog else none) .Cw
      { stepper := homedStepper 2048 2048 225 64 .Cw 0
        delay := 15625
        dir := .Cw
        continue_fn :=
          fun k => jog_continue_pred (if k = 2 then some Command.StopJog else none)
        calls := 0 } .Cw rfl 2).1.mpr (by decide)
  · exact (c5_jog_termination (homedStepper 2048 2048 225 64 .Cw 0)
      (fun k => if k = 2 then some Command.StopJog else none) .Cw
      { stepper := homedStepper 2048 2048 225 64 .Cw 0
        delay := 15625
        dir := .Cw
        continue_fn :=
          fun k => jog_continue_pred (if k = 2 then some Command.StopJog else none)
        calls := 0 } .Cw rfl 0).2 (by decide)

theorem c10_saturating_updates_witness :
    (((homedStepper 2048 2048 225 64 .Cw 0).update_pos_one_step .Ccw).curent_pos =
      some (if Direction.Ccw = (homedStepper 2048 2048 225 64 .Cw 0).dir_to_home
            then min (0 + 1) U32_MAX else 0 - 1)) ∧
    (Direction.Ccw ≠ (homedStepper 2048 2048 225 64 .Cw 0).dir_to_home → 0 = 0 →
      ((homedStepper 2048 2048 225 64 .Cw 0).update_pos_one_step .Ccw).curent_pos = some 0) ∧
    (∀ (f : Nat → Bool) (j : ContinuousJog) (dirR : Direction),
      (homedStepper 2048 2048 225 64 .Cw 0).continuous_jog f .Ccw = .ok (j, dirR) →
        f 0 = true →
        j.next.1 = some (TICK_HZ / (homedStepper 2048 2048 225 64 .Cw 0).start_vel) ∧
        (j.next.2).stepper.curent_pos =
          some (if Direction.Ccw = (homedStepper 2048 2048 225 64 .Cw 0).dir_to_home
                then min (0 + 1) U32_MAX else 0 - 1)) :=
  c10_saturating_updates (homedStepper 2048 2048 225 64 .Cw 0) 0 .Ccw rfl

/-- find_preamble finds a genuine in-bounds occurrence of the preamble. -/
theorem find_preamble_sound :
    ∀ (l : List Nat) (i : Nat), find_preamble l = some i →
      i + 2 ≤ l.length ∧ l.getD i 0 = 0x05 ∧ l.getD (i + 1) 0 = 0xff := by
  intro l
  induction l with
  | nil => intro i h; simp [find_preamble] at h
  | cons b0 tail ih =>
    intro i h
    cases tail with
    | nil => simp [find_preamble] at h
    | cons b1 rest =>
      rw [find_preamble] at h
      by_cases hpre : b0 = 0x05 ∧ b1 = 0xff
      · rw [if_pos hpre] at h
        have hi : (0 : Nat) = i := Option.some.inj h
        subst hi
        exact ⟨by simp, by simp [hpre.1], by simp [hpre.2]⟩
      · rw [if_neg hpre] at h
        cases hrec : find_preamble (b1 :: rest) with
        | none => rw [hrec] at h; simp at h
        | some i0 =>
          rw [hrec] at h
          have hi : i0 + 1 = i := Option.some.inj h
          subst hi
          obtain ⟨hlen2, h5, hff⟩ := ih i0 hrec
          refine ⟨?_, ?_, ?_⟩
          · simp only [List.length_cons] at hlen2 ⊢
            omega
          · simpa using h5
          · simpa using hff

/-- Claim C6, amended: for every register, 8-byte initial read and
continuation stream, when the receive loop finds the reply preamble first at
offset i (any of the offsets 0..6), it aligns the reply to the buffer start,
completes it to 8 bytes with the next i stream bytes, and then validates
exactly as the source does: UnexpectedAdress when the byte at offset 2 of
the aligned reply (not offset 3, which is the most significant payload byte)
differs from register & 0x7F, CrcMismatch when the CRC of bytes 0..7 differs
from byte 7, and otherwise the big-endian u32 of bytes 3..7. -/
theorem c6_reply_parsing (register : Nat) (buffer stream : List Nat) (i : Nat)
    (hlen : buffer.length = 8) (hfind : find_preamble buffer = some i)
    (hstream : i ≤ stream.length) :
    i ≤ 6 ∧ buffer.getD i 0 = 0x05 ∧ buffer.getD (i + 1) 0 = 0xff ∧
    process_read_buffer register buffer stream =
      some (reply_validate register (buffer.drop i ++ stream.take i)) := by
  obtain ⟨hbound, h5, hff⟩ := find_preamble_sound buffer i hfind
  rw [hlen] at hbound
  refine ⟨by omega, h5, hff, ?_⟩
  have hfrag : (buffer.drop i).length = 8 - i := by
    simp [hlen]
  have htake : 8 - (8 - i) = i := by omega
  simp only [process_read_buffer, hfind, hfrag, htake]
  rw [if_neg (by omega)]
  rw [reply_validate]
  split
  · rfl
  · split
    · rfl
    · rfl

/-- Claim C6, counterexample: an aligned reply whose byte at offset 3 (the
top payload byte, here 0x01) differs from register & 0x7F = 0x02 is
nevertheless accepted, because the source validates the byte at offset 2;
the claim's offset-3 validation would have rejected this frame with
UnexpectedAddress. -/
theorem c6_counterexample :
    process_read_buffer 2 [0x05, 0xff, 0x02, 0x01, 0x02, 0x03, 0x04, 246] [] =
      some (.ok 16909060) ∧
    [(0x05 : Nat), 0xff, 0x02, 0x01, 0x02, 0x03, 0x04, 246].getD 3 0 ≠ 2 &&& 0x7F := by
  exact ⟨by decide, by decide⟩

theorem c6_reply_parsing_witness :
    3 ≤ 6 ∧ [(9 : Nat), 9, 9, 0x05, 0xff, 0x00, 0x01, 0x02].getD 3 0 = 0x05 ∧
    [(9 : Nat), 9, 9, 0x05, 0xff, 0x00, 0x01, 0x02].getD 4 0 = 0xff ∧
    process_read_buffer 0 [9, 9, 9, 0x05, 0xff, 0x00, 0x01, 0x02] [3, 4, 99] =
      some (reply_validate 0
        (([(9 : Nat), 9, 9, 0x05, 0xff, 0x00, 0x01, 0x02].drop 3) ++
          ([(3 : Nat), 4, 99].take 3))) :=
  c6_reply_parsing 0 [9, 9, 9, 0x05, 0xff, 0x00, 0x01, 0x02] [3, 4, 99] 3
    (by decide) (by decide) (by decide)

/-- Each byte's eight CRC bit steps of the source (foldl over the bit range)
coincide with the spec's pseudocode loop. -/
theorem crc_byte_eq_spec (b crc : Nat) :
    (List.range 8).foldl (crc_bit_update b) crc = spec_crc_bits b crc 8 := by
  rfl

/-- The source CRC equals the spec CRC on every message. -/
theorem calc_uart_crc_eq_spec (msg : List Nat) : calc_uart_crc msg = spec_crc msg := by
  rw [calc_uart_crc, spec_crc]
  have h : ∀ (l : List Nat) (c : Nat),
      l.foldl (fun crc byte => (List.range 8).foldl (crc_bit_update byte) crc) c =
        spec_crc_bytes l c := by
    intro l
    induction l with
    | nil => intro c; rfl
    | cons b rest ih =>
      intro c
      rw [List.foldl_cons, spec_crc_bytes, ← crc_byte_eq_spec]
      exact ih _
  exact h msg 0

/-- Claim C7: for every slave address, register and payload, the constructed
write frame is exactly the 8 bytes [0xA5, slave_addr, register|0x80, d3, d2,
d1, d0, crc], d3..d0 the big-endian payload bytes and crc the CRC of the
first seven bytes computed with polynomial 0x07 from initial value 0,
LSB-first per byte, as the spec's pseudocode states it. -/
theorem c7_write_frame (slave_address register data : Nat) :
    construct_write_uart_message slave_address register data =
      spec_write_frame slave_address register data := by
  rw [construct_write_uart_message, spec_write_frame]
  simp only [u32_to_be_bytes, calc_uart_crc_eq_spec]
  rfl

/-- Claim C8, amended: for every publish received on the command topic the
handler parses the payload as UTF-8 text containing a signed decimal i8
(range -128..127, with no narrowing to 0..100); exactly when parsing
succeeds it signals MoveToPos(n) with the parsed value into LAST_COMMAND
and the session continues; it signals nothing but MoveToPos; it aborts the
MQTT session exactly when decoding or parsing fails, which is exactly when
it signals no command; and on every payload, valid or invalid, it raises no
error signal of any severity - in particular no Soft error - because
mqtt_task never writes ERROR_SIGNAL. -/
theorem c8_payload_handling (payload : List Nat) :
    (∀ n : Int, (mqtt_handle_payload payload).signaled_command =
        some (.MoveToPos n) ↔
      (utf8_valid payload = true ∧ parse_i8 payload = some n)) ∧
    (∀ c : Command, (mqtt_handle_payload payload).signaled_command = some c →
      ∃ n : Int, c = .MoveToPos n ∧ -128 ≤ n ∧ n ≤ 127) ∧
    ((mqtt_handle_payload payload).session_aborted = true ↔
      ¬ (utf8_valid payload = true ∧ (parse_i8 payload).isSome)) ∧
    ((mqtt_handle_payload payload).signaled_command = none ↔
      (mqtt_handle_payload payload).session_aborted = true) ∧
    (mqtt_handle_payload payload).error_signal = none := by
  have hrange : ∀ n : Int, parse_i8 payload = some n → -128 ≤ n ∧ n ≤ 127 := by
    intro n h
    rcases payload with _ | ⟨b, rest⟩
    · simp [parse_i8] at h
    · rw [parse_i8] at h
      by_cases hb43 : b = 43
      · rw [if_pos hb43] at h
        obtain ⟨v, hv, hf⟩ := Option.bind_eq_some.mp h
        by_cases hle : v ≤ 127
        · rw [if_pos hle] at hf
          cases hf
          omega
        · rw [if_neg hle] at hf
          exact Option.noConfusion hf
      · rw [if_neg hb43] at h
        by_cases hb45 : b = 45
        · rw [if_pos hb45] at h
          obtain ⟨v, hv, hf⟩ := Option.bind_eq_some.mp h
          by_cases hle : v ≤ 128
          · rw [if_pos hle] at hf
            cases hf
            omega
          · rw [if_neg hle] at hf
            exact Option.noConfusion hf
        · rw [if_neg hb45] at h
          obtain ⟨v, hv, hf⟩ := Option.bind_eq_some.mp h
          by_cases hle : v ≤ 127
          · rw [if_pos hle] at hf
            cases hf
            omega
          · rw [if_neg hle] at hf
            exact Option.noConfusion hf
  refine ⟨?_, ?_, ?_, ?_, ?_⟩
  · intro n
    rw [mqtt_handle_payload]
    by_cases hu : utf8_valid payload
    · rw [if_pos hu]
      cases hp : parse_i8 payload with
      | none => simp [hu, hp]
      | some v => simp [hu, hp]
    · rw [if_neg hu]
      simp only [Bool.not_eq_true] at hu
      simp [hu]
  · intro c hc
    rw [mqtt_handle_payload] at hc
    split at hc
    · cases hp : parse_i8 payload with
      | none => rw [hp] at hc; simp at hc
      | some v =>
        rw [hp] at hc
        simp only [Option.some.injEq] at hc
        exact ⟨v, hc.symm, hrange v hp⟩
    · simp at hc
  · rw [mqtt_handle_payload]
    by_cases hu : utf8_valid payload
    · rw [if_pos hu]
      cases hp : parse_i8 payload with
      | none => simp [hu, hp]
      | some v => simp [hu, hp]
    · rw [if_neg hu]
      simp only [Bool.not_eq_true] at hu
      simp [hu]
  · rw [mqtt_handle_payload]
    by_cases hu : utf8_valid payload
    · rw [if_pos hu]
      cases hp : parse_i8 payload with
      | none => simp [hp]
      | some v => simp [hp]
    · rw [if_neg hu]
      simp
  · rw [mqtt_handle_payload]
    by_cases hu : utf8_valid payload
    · rw [if_pos hu]
      cases hp : parse_i8 payload with
      | none => simp [hp]
      | some v => simp [hp]
    · rw [if_neg hu]

/-- Claim C8, counterexample: the ASCII payload 120 parses as an i8 outside
the claim's range 0..100, yet the handler signals MoveToPos(120), keeps the
session alive and raises no error; and the invalid payload hi aborts the
session while raising no error signal at all - in particular not the Soft
error the claim asserts. -/
theorem c8_counterexample :
    mqtt_handle_payload [49, 50, 48] =
      { signaled_command := some (.MoveToPos 120)
        session_aborted := false
        error_signal := none } ∧
    ¬ (120 : Int) ≤ 100 ∧
    mqtt_handle_payload [104, 105] =
      { signaled_command := none
        session_aborted := true
        error_signal := none } :=
  ⟨by decide, by decide, by decide⟩

theorem c8_payload_handling_witness :
    (mqtt_handle_payload [55, 53]).signaled_command = some (.MoveToPos 75) ∧
    (mqtt_handle_payload [104, 105]).session_aborted = true ∧
    (mqtt_handle_payload [104, 105]).error_signal = none :=
  ⟨((c8_payload_handling [55, 53]).1 75).mpr (by decide),
   ((c8_payload_handling [104, 105]).2.2.1).mpr (by decide),
   (c8_payload_handling [104, 105]).2.2.2.2⟩

/-! ### Planner invariant machinery for claims C1, C2 and C9 -/

theorem tick_eq : TICK_HZ = 1000000 := rfl

theorem accel_divisor_ge_two (ma : Nat) (h1 : 1 ≤ ma) (h2 : 2 * ma ≤ U32_MAX) :
    2 ≤ Stepper.compute_accel_divisor ma := by
  rw [Stepper.compute_accel_divisor]
  have hma : 2 * ma ≤ TICK_HZ ^ 2 := by
    rw [U32_MAX] at h2
    rw [tick_eq]
    omega
  exact (Nat.le_div_iff_mul_le h1).mpr hma

theorem inital_delay_le (sv ma : Nat) :
    Stepper.compute_inital_delay sv ma ≤ TICK_HZ :=
  Nat.div_le_self _ _

theorem cruise_delay_le (ms : Nat) :
    Stepper.compute_cruise_delay ms ≤ 2 * TICK_HZ := by
  rw [Stepper.compute_cruise_delay, durationFromHz, tick_eq]
  split
  · omega
  · have h1 : (1000000 + ms / 2) / ms ≤ 1000000 + ms / 2 := Nat.div_le_self _ _
    omega

/-- The first accelerating step: with prev_delay = Duration::MAX and carry 0,
the clamp yields exactly inital_delay. -/
theorem first_accel_delay (ad cd idl : Nat) (had : 2 ≤ ad)
    (hcd : cd ≤ 2 * TICK_HZ) (hidl : idl ≤ TICK_HZ) :
    min (max (U64_MAX - (satPow3 U64_MAX + 0) % 2 ^ 64 / ad) cd) idl = idl := by
  have h1 : satPow3 U64_MAX = U64_MAX := by
    rw [satPow3]
    exact Nat.min_eq_right (Nat.le_self_pow (by omega) _)
  rw [h1, Nat.add_zero, Nat.mod_eq_of_lt (by rw [U64_MAX]; omega)]
  have h3 : U64_MAX / ad ≤ U64_MAX / 2 := Nat.div_le_div_left had (by omega)
  have h4 : 2 * TICK_HZ + U64_MAX / 2 ≤ U64_MAX := by
    rw [U64_MAX, tick_eq]
    omega
  rw [Nat.max_eq_left (by omega), Nat.min_eq_right (by omega)]

/-- Eliminating a successful planned_move into its full initial state. -/
theorem planned_move_ok_elim (s : Stepper) (t : Nat) (pm : PlannedMove)
    (dirR : Direction) (h : s.planned_move t = .ok (pm, dirR)) :
    ∃ p, s.curent_pos = some p ∧ t ≤ s.travel_limit ∧
      dirR = (if p < t then s.dir_to_home else s.dir_to_home.opposite) ∧
      pm = { stepper := s
             phase := .Accelerate
             prev_delay := U64_MAX
             dir := if p < t then s.dir_to_home else s.dir_to_home.opposite
             stopping_distance :=
               (if s.max_stopping_distance * 2 < max p t - min p t
                then s.max_stopping_distance
                else (max p t - min p t + 1) / 2) + 2
             steps_to_travel := max p t - min p t
             rem := 0 } := by
  cases hpos : s.curent_pos with
  | none =>
    rw [Stepper.planned_move, hpos] at h
    exact absurd h (by simp)
  | some p =>
    simp only [Stepper.planned_move, hpos] at h
    by_cases hoob : s.travel_limit < t
    · rw [if_pos hoob] at h
      exact absurd h (by simp)
    · rw [if_neg hoob] at h
      simp only [Except.ok.injEq, Prod.mk.injEq] at h
      exact ⟨p, rfl, by omega, h.2.symm, h.1.symm⟩

/-- Stepping the position toward larger values (dir equals dir_to_home):
the u32 saturation at U32_MAX is inert because the position stays at or
below the target, which is within the travel limit. -/
theorem pos_update_up (B : Stepper) (t q s : Nat)
    (htl : B.travel_limit ≤ U32_MAX) (ht : t ≤ B.travel_limit)
    (hs : 1 ≤ s) (hst : s ≤ t) (hq : q = t - s) :
    ({ B with curent_pos := some q } : Stepper).update_pos_one_step B.dir_to_home =
      { B with curent_pos := some (t - (s - 1)) } := by
  subst hq
  simp only [Stepper.update_pos_one_step]
  have hmin : min (t - s + 1) U32_MAX = t - (s - 1) := by
    rw [U32_MAX] at htl ⊢
    omega
  simp [hmin]

/-- Stepping the position toward smaller values (dir differs from
dir_to_home): exact Nat subtraction because the position stays at or above
the target. -/
theorem pos_update_down (B : Stepper) (dir0 : Direction) (t q s : Nat)
    (hne : dir0 ≠ B.dir_to_home) (hs : 1 ≤ s) (hq : q = t + s) :
    ({ B with curent_pos := some q } : Stepper).update_pos_one_step dir0 =
      { B with curent_pos := some (t + (s - 1)) } := by
  subst hq
  simp only [Stepper.update_pos_one_step]
  have hval : t + s - 1 = t + (s - 1) := by omega
  simp [if_neg hne, hval]

/-- A planned move whose remaining step count is zero and whose phase
satisfies the invariant is exhausted: next returns none and leaves the
state untouched. -/
theorem pm_halt (B : Stepper) (t sd dist : Nat) (dir0 : Direction)
    (m : PlannedMove) (hinv : PMInv B t sd dist dir0 m)
    (hs : m.steps_to_travel = 0) : m.next = (none, m) := by
  obtain ⟨hdir, hsd', hsle, ⟨q, hst, hqr⟩, hacc, hcru⟩ := hinv
  cases hph : m.phase with
  | Accelerate => simp [PlannedMove.next, hph, hs]
  | Cruise => exact absurd (hcru hph).1 (by omega)
  | Decelerate => simp [PlannedMove.next, hph, hs]

/-- One emitting step of the PlannedMove iterator: when steps remain, next
emits a delay, preserves the invariant, and decrements steps_to_travel by
exactly one.  The exclusion hypothesis hexc rules out the one configuration
(single-step move with inital_delay = cruise_delay) in which the
Accelerate-to-Cruise transition fires with no steps left. -/
theorem pm_step (B : Stepper) (t sd dist : Nat) (dir0 : Direction) (m : PlannedMove)
    (htl : B.travel_limit ≤ U32_MAX) (ht : t ≤ B.travel_limit)
    (hdistU : dist ≤ U32_MAX)
    (had : 2 ≤ B.accel_divisor) (hcd2 : B.cruise_delay ≤ 2 * TICK_HZ)
    (hidl : B.inital_delay ≤ TICK_HZ) (hsd : 2 ≤ sd)
    (hexc : ¬ (dist = 1 ∧ B.inital_delay = B.cruise_delay))
    (hinv : PMInv B t sd dist dir0 m) (hs : 1 ≤ m.steps_to_travel) :
    (m.next.1).isSome = true ∧ PMInv B t sd dist dir0 m.next.2 ∧
      m.next.2.steps_to_travel = m.steps_to_travel - 1 := by
  obtain ⟨hdir, hsd', hsle, ⟨q, hst, hqr⟩, hacc, hcru⟩ := hinv
  obtain ⟨q', hupd, hrel⟩ : ∃ q',
      m.stepper.update_pos_one_step m.dir = { B with curent_pos := some q' } ∧
      (if dir0 = B.dir_to_home then m.steps_to_travel - 1 ≤ t ∧
          q' = t - (m.steps_to_travel - 1)
       else q' = t + (m.steps_to_travel - 1)) := by
    by_cases hdh : dir0 = B.dir_to_home
    · rw [if_pos hdh] at hqr
      refine ⟨t - (m.steps_to_travel - 1), ?_, ?_⟩
      · rw [hst, hdir, hdh]
        exact pos_update_up B t q m.steps_to_travel htl ht hs hqr.1 hqr.2
      · rw [if_pos hdh]
        exact ⟨by omega, rfl⟩
    · rw [if_neg hdh] at hqr
      refine ⟨t + (m.steps_to_travel - 1), ?_, ?_⟩
      · rw [hst, hdir]
        exact pos_update_down B dir0 t q m.steps_to_travel hdh hs hqr
      · rw [if_neg hdh]
  cases hph : m.phase with
  | Accelerate =>
    have hs0 : ¬ m.steps_to_travel = 0 := by omega
    have hfacts := hacc hph
    by_cases hc1 : m.steps_to_travel - 1 ≤ m.stopping_distance
    · simp only [PlannedMove.next, hph, if_neg hs0, hupd, hc1, if_true, if_pos]
      split
      next hc2 =>
        refine ⟨by simp, ⟨hdir, hsd', ?_, ⟨q', rfl, hrel⟩, ?_, ?_⟩, by simp⟩
        · show m.steps_to_travel - 1 ≤ dist
          omega
        · intro hcontra
          simp at hcontra
        · intro _
          refine ⟨?_, hc2⟩
          show 1 ≤ m.steps_to_travel - 1
          rcases hfacts with ⟨hprev, hrem, hsdist⟩ | hgt
          · rw [hprev] at hc2
            rw [first_accel_delay B.accel_divisor B.cruise_delay B.inital_delay
              had hcd2 hidl] at hc2
            have hdist1 : dist ≠ 1 := fun h1 => hexc ⟨h1, hc2⟩
            omega
          · omega
      next hc2 =>
        refine ⟨by simp, ⟨hdir, hsd', ?_, ⟨q', rfl, hrel⟩, ?_, ?_⟩, by simp⟩
        · show m.steps_to_travel - 1 ≤ dist
          omega
        · intro hcontra
          simp at hcontra
        · intro hcontra
          simp at hcontra
    · simp only [PlannedMove.next, hph, if_neg hs0, hupd, hc1, if_false, if_neg,
        not_false_iff]
      split
      next hc2 =>
        refine ⟨by simp, ⟨hdir, hsd', ?_, ⟨q', rfl, hrel⟩, ?_, ?_⟩, by simp⟩
        · show m.steps_to_travel - 1 ≤ dist
          omega
        · intro hcontra
          simp at hcontra
        · intro _
          refine ⟨?_, hc2⟩
          show 1 ≤ m.steps_to_travel - 1
          omega
      next hc2 =>
        refine ⟨by simp, ⟨hdir, hsd', ?_, ⟨q', rfl, hrel⟩, ?_, ?_⟩, by simp⟩
        · show m.steps_to_travel - 1 ≤ dist
          omega
        · intro _
          right
          show sd < m.steps_to_travel - 1
          omega
        · intro hcontra
          simp at hcontra
  | Cruise =>
    obtain ⟨hs1, hprev⟩ := hcru hph
    have hpow : (2 : Nat) ^ 32 = 4294967296 := by norm_num
    have hsU : m.steps_to_travel ≤ 4294967296 - 1 := by
      rw [U32_MAX, hpow] at hdistU
      omega
    have hwrap : (m.steps_to_travel + (2 ^ 32 - 1)) % 2 ^ 32 = m.steps_to_travel - 1 := by
      rw [hpow]
      omega
    by_cases hc1 : m.steps_to_travel - 1 ≤ m.stopping_distance
    · simp only [PlannedMove.next, hph, hwrap, hupd, hc1, if_true, if_pos]
      refine ⟨by simp, ⟨hdir, hsd', ?_, ⟨q', rfl, hrel⟩, ?_, ?_⟩, by simp⟩
      · show m.steps_to_travel - 1 ≤ dist
        omega
      · intro hcontra
        simp at hcontra
      · intro hcontra
        simp at hcontra
    · simp only [PlannedMove.next, hph, hwrap, hupd, hc1, if_false, if_neg,
        not_false_iff]
      refine ⟨by simp, ⟨hdir, hsd', ?_, ⟨q', rfl, hrel⟩, ?_, ?_⟩, by simp⟩
      · show m.steps_to_travel - 1 ≤ dist
        omega
      · intro hcontra
        simp at hcontra
      · intro _
        refine ⟨?_, hprev⟩
        show 1 ≤ m.steps_to_travel - 1
        omega
  | Decelerate =>
    have hs0 : ¬ m.steps_to_travel = 0 := by omega
    simp only [PlannedMove.next, hph, if_neg hs0, hupd]
    refine ⟨by simp, ⟨hdir, hsd', ?_, ⟨q', rfl, hrel⟩, ?_, ?_⟩, by simp⟩
    · show m.steps_to_travel - 1 ≤ dist
      omega
    · intro hcontra
      simp at hcontra
    · intro hcontra
      simp at hcontra

/-- The invariant holds along the whole iteration and the step count
decreases by one per emitting call. -/
theorem pm_stepN_inv (B : Stepper) (t sd dist : Nat) (dir0 : Direction)
    (m : PlannedMove)
    (htl : B.travel_limit ≤ U32_MAX) (ht : t ≤ B.travel_limit)
    (hdistU : dist ≤ U32_MAX)
    (had : 2 ≤ B.accel_divisor) (hcd2 : B.cruise_delay ≤ 2 * TICK_HZ)
    (hidl : B.inital_delay ≤ TICK_HZ) (hsd : 2 ≤ sd)
    (hexc : ¬ (dist = 1 ∧ B.inital_delay = B.cruise_delay))
    (hinv : PMInv B t sd dist dir0 m) (hdist : m.steps_to_travel = dist) :
    ∀ n, PMInv B t sd dist dir0 (m.stepN n) ∧
      (m.stepN n).steps_to_travel = dist - n := by
  intro n
  induction n with
  | zero => exact ⟨hinv, by simpa [PlannedMove.stepN] using hdist⟩
  | succ k ih =>
    obtain ⟨ihinv, ihs⟩ := ih
    by_cases hk : k < dist
    · have hs1 : 1 ≤ (m.stepN k).steps_to_travel := by omega
      obtain ⟨_, hinv', hdec⟩ := pm_step B t sd dist dir0 (m.stepN k)
        htl ht hdistU had hcd2 hidl hsd hexc ihinv hs1
      refine ⟨hinv', ?_⟩
      show ((m.stepN k).next.2).steps_to_travel = dist - (k + 1)
      rw [hdec]
      omega
    · have hs0 : (m.stepN k).steps_to_travel = 0 := by omega
      have hh := pm_halt B t sd dist dir0 (m.stepN k) ihinv hs0
      have hsame : m.stepN (k + 1) = m.stepN k := by
        show (m.stepN k).next.2 = m.stepN k
        rw [hh]
      rw [hsame]
      exact ⟨ihinv, by omega⟩

/-- Every next call preserves the delay-envelope invariant (with no
hypothesis on the configuration: this also holds through the Cruise-arm
wrap-around). -/
theorem pm_delay_inv_next (B : Stepper) (m : PlannedMove) (h : PMDelayInv B m) :
    PMDelayInv B m.next.2 := by
  obtain ⟨hcd, hidl, had, hcru⟩ := h
  unfold PMDelayInv
  cases hph : m.phase <;>
    simp only [PlannedMove.next, hph] <;>
    split_ifs <;>
    simp_all [Stepper.update_pos_one_step]

theorem pm_delay_inv_stepN (B : Stepper) (m : PlannedMove) (h : PMDelayInv B m) :
    ∀ n, PMDelayInv B (m.stepN n) := by
  intro n
  induction n with
  | zero => exact h
  | succ k ih => exact pm_delay_inv_next B (m.stepN k) ih

/-- Every emitted delay lies in the velocity envelope
[cruise_delay, inital_delay], provided the envelope is nonempty. -/
theorem pm_delay_emit (B : Stepper) (m : PlannedMove) (h : PMDelayInv B m)
    (henv : B.cruise_delay ≤ B.inital_delay) (d : Nat) (hd : m.next.1 = some d) :
    B.cruise_delay ≤ d ∧ d ≤ B.inital_delay := by
  obtain ⟨hcd, hidl, had, hcru⟩ := h
  cases hph : m.phase with
  | Accelerate =>
    by_cases hs0 : m.steps_to_travel = 0
    · simp [PlannedMove.next, hph, hs0] at hd
    · by_cases hc1 : m.steps_to_travel - 1 ≤ m.stopping_distance
      · simp only [PlannedMove.next, hph, if_neg hs0, hc1, if_true, if_pos,
          Stepper.update_pos_one_step, Option.some.injEq] at hd
        rw [hcd, hidl] at hd
        rw [← hd]
        exact ⟨Nat.le_min.mpr ⟨Nat.le_max_right _ _, henv⟩, Nat.min_le_right _ _⟩
      · simp only [PlannedMove.next, hph, if_neg hs0, hc1, if_false, if_neg,
          not_false_iff, Stepper.update_pos_one_step, Option.some.injEq] at hd
        rw [hcd, hidl] at hd
        rw [← hd]
        exact ⟨Nat.le_min.mpr ⟨Nat.le_max_right _ _, henv⟩, Nat.min_le_right _ _⟩
  | Cruise =>
    have hprev := hcru hph
    by_cases hc1 : (m.steps_to_travel + (2 ^ 32 - 1)) % 2 ^ 32 ≤ m.stopping_distance
    · simp only [PlannedMove.next, hph, hc1, if_true, if_pos,
        Option.some.injEq] at hd
      rw [← hd, hprev]
      exact ⟨Nat.le_refl _, henv⟩
    · simp only [PlannedMove.next, hph, hc1, if_false, if_neg, not_false_iff,
        Option.some.injEq] at hd
      rw [← hd, hprev]
      exact ⟨Nat.le_refl _, henv⟩
  | Decelerate =>
    by_cases hs0 : m.steps_to_travel = 0
    · simp [PlannedMove.next, hph, hs0] at hd
    · simp only [PlannedMove.next, hph, if_neg hs0, Stepper.update_pos_one_step,
        Option.some.injEq] at hd
      rw [hcd, hidl] at hd
      rw [← hd]
      exact ⟨Nat.le_min.mpr ⟨Nat.le_max_right _ _, henv⟩, Nat.min_le_right _ _⟩

/-- The master correctness lemma of planned moves: for every well-formed
configuration, known u32 position and in-range target - excluding the
distance-1 / inital_delay = cruise_delay configuration on which the Cruise
arm underflows - the plan emits a delay on each of the first
|current - target| calls, then none forever after, lands the position
exactly on the target, and never executes Cruise with zero steps left. -/
theorem pm_master (tl ms ma sv : Nat) (dth : Direction) (p t : Nat)
    (hwf : WFConfig tl ms ma sv) (hp : p ≤ U32_MAX) (ht : t ≤ tl)
    (hexc : ¬ (max p t - min p t = 1 ∧
      Stepper.compute_inital_delay sv ma = Stepper.compute_cruise_delay ms)) :
    ∃ (pm : PlannedMove) (dirR : Direction),
      (homedStepper tl ms ma sv dth p).planned_move t = .ok (pm, dirR) ∧
      (∀ k, k < max p t - min p t → (pm.emitAt k).isSome = true) ∧
      (∀ k, max p t - min p t ≤ k → pm.emitAt k = none) ∧
      (∀ n, max p t - min p t ≤ n → (pm.stepN n).stepper.curent_pos = some t) ∧
      (∀ n, (pm.stepN n).phase = .Cruise → 1 ≤ (pm.stepN n).steps_to_travel) := by
  obtain ⟨h1, h2, h3, h4, h5, h6, h7⟩ := hwf
  set B : Stepper := homedStepper tl ms ma sv dth p with hB
  set DIST : Nat := max p t - min p t with hDIST
  set SD : Nat :=
    (if B.max_stopping_distance * 2 < DIST then B.max_stopping_distance
     else (DIST + 1) / 2) + 2 with hSD
  set DIR : Direction :=
    if p < t then B.dir_to_home else B.dir_to_home.opposite with hDIR
  set M : PlannedMove :=
    { stepper := B
      phase := .Accelerate
      prev_delay := U64_MAX
      dir := DIR
      stopping_distance := SD
      steps_to_travel := DIST
      rem := 0 } with hM
  have hpos : B.curent_pos = some p := rfl
  have hBtl : B.travel_limit = tl := rfl
  have hBcd : B.cruise_delay = Stepper.compute_cruise_delay ms := rfl
  have hBidl : B.inital_delay = Stepper.compute_inital_delay sv ma := rfl
  have hBad : B.accel_divisor = Stepper.compute_accel_divisor ma := rfl
  refine ⟨M, DIR, ?_, ?_⟩
  · simp only [Stepper.planned_move, hpos]
    rw [if_neg (show ¬ B.travel_limit < t by rw [hBtl]; omega)]
  · have htlB : B.travel_limit ≤ U32_MAX := by rw [hBtl]; exact h2
    have htB : t ≤ B.travel_limit := by rw [hBtl]; exact ht
    have hdistU : DIST ≤ U32_MAX := by rw [hDIST]; omega
    have had2 : 2 ≤ B.accel_divisor := by rw [hBad]; exact accel_divisor_ge_two ma h5 h6
    have hcd2 : B.cruise_delay ≤ 2 * TICK_HZ := by rw [hBcd]; exact cruise_delay_le ms
    have hidlB : B.inital_delay ≤ TICK_HZ := by rw [hBidl]; exact inital_delay_le sv ma
    have hexcB : ¬ (DIST = 1 ∧ B.inital_delay = B.cruise_delay) := by
      rw [hDIST, hBidl, hBcd]
      exact hexc
    have hsdB : 2 ≤ SD := by rw [hSD]; exact Nat.le_add_left 2 _
    have hinv0 : PMInv B t SD DIST DIR M := by
      refine ⟨rfl, rfl, Nat.le_refl _, ⟨p, rfl, ?_⟩, ?_, ?_⟩
      · show if DIR = B.dir_to_home then M.steps_to_travel ≤ t ∧
            p = t - M.steps_to_travel
          else p = t + M.steps_to_travel
        have hMs : M.steps_to_travel = DIST := rfl
        rw [hMs]
        by_cases hpt : p < t
        · rw [hDIR, if_pos hpt, if_pos rfl]
          rw [hDIST]
          constructor <;> omega
        · rw [hDIR, if_neg hpt, if_neg (Direction.opposite_ne B.dir_to_home)]
          rw [hDIST]
          omega
      · intro _
        left
        exact ⟨rfl, rfl, rfl⟩
      · intro hcontra
        simp [hM] at hcontra
    have hall := pm_stepN_inv B t SD DIST DIR M htlB htB hdistU had2 hcd2 hidlB
      hsdB hexcB hinv0 rfl
    refine ⟨?_, ?_, ?_, ?_⟩
    · intro k hk
      have hs1 : 1 ≤ (M.stepN k).steps_to_travel := by
        rw [(hall k).2]
        omega
      exact (pm_step B t SD DIST DIR (M.stepN k) htlB htB hdistU had2 hcd2 hidlB
        hsdB hexcB (hall k).1 hs1).1
    · intro k hk
      have hs0 : (M.stepN k).steps_to_travel = 0 := by
        rw [(hall k).2]
        omega
      show (M.stepN k).next.1 = none
      rw [pm_halt B t SD DIST DIR (M.stepN k) (hall k).1 hs0]
    · intro n hn
      obtain ⟨hdir', hsd', hsle', ⟨q, hst, hqr⟩, hacc', hcru'⟩ := (hall n).1
      have hs0 : (M.stepN n).steps_to_travel = 0 := by
        rw [(hall n).2]
        omega
      rw [hst]
      have hq : q = t := by
        rw [hs0] at hqr
        by_cases hdh : DIR = B.dir_to_home
        · rw [if_pos hdh] at hqr
          omega
        · rw [if_neg hdh] at hqr
          omega
      rw [hq]
    · intro n hph
      exact ((hall n).1.2.2.2.2.2 hph).1

/-- Concrete evaluation of the counterexample configuration (max_speed 64,
max_accel 64, start_vel 63): inital_delay and cruise_delay both come out at
15625 ticks. -/
theorem homed_eval_cex :
    homedStepper 2048 64 64 63 .Cw 0 =
      { travel_limit := 2048, max_speed := 64, max_accel := 64, start_vel := 63,
        dir_to_home := .Cw, curent_pos := some 0, max_stopping_distance := 0,
        cruise_delay := 15625, accel_divisor := 15625000000,
        inital_delay := 15625 } := by
  have hsq : Nat.sqrt 4097 = 64 := (Nat.eq_sqrt.mpr (by norm_num)).symm
  have hidl : Stepper.compute_inital_delay 63 64 = 15625 := by
    rw [Stepper.compute_inital_delay, tick_eq]
    norm_num [hsq]
  have h1 : Stepper.compute_max_stopping_distance 64 63 64 = 0 := by decide
  have h2 : Stepper.compute_cruise_delay 64 = 15625 := by decide
  have h3 : Stepper.compute_accel_divisor 64 = 15625000000 := by decide
  rw [homedStepper, Stepper.new]
  simp only [h1, h2, h3, hidl]

/-- Concrete evaluation of the Rust test-suite configuration (max_speed 255,
max_accel 64, start_vel 50). -/
theorem homed_eval_test :
    homedStepper 2048 255 64 50 .Cw 0 =
      { travel_limit := 2048, max_speed := 255, max_accel := 64, start_vel := 50,
        dir_to_home := .Cw, curent_pos := some 0, max_stopping_distance := 488,
        cruise_delay := 3922, accel_divisor := 15625000000,
        inital_delay := 19607 } := by
  have hsq : Nat.sqrt 2628 = 51 := (Nat.eq_sqrt.mpr (by norm_num)).symm
  have hidl : Stepper.compute_inital_delay 50 64 = 19607 := by
    rw [Stepper.compute_inital_delay, tick_eq]
    norm_num [hsq]
  have h1 : Stepper.compute_max_stopping_distance 255 50 64 = 488 := by decide
  have h2 : Stepper.compute_cruise_delay 255 = 3922 := by decide
  have h3 : Stepper.compute_accel_divisor 64 = 15625000000 := by decide
  rw [homedStepper, Stepper.new]
  simp only [h1, h2, h3, hidl]

/-- Claim C1, amended: for every well-formed configuration, known position
and target within the travel limit, provided the move is not a distance-1
move with inital_delay = cruise_delay (the configuration on which the
Cruise arm underflows, see the counterexample), the plan emits exactly
|current_pos - target_pos| delays - one per call until the distance is
covered, none afterwards - and from exhaustion on the position equals the
target. -/
theorem c1_planned_move_complete (tl ms ma sv : Nat) (dth : Direction) (p t : Nat)
    (hwf : WFConfig tl ms ma sv) (hp : p ≤ U32_MAX) (ht : t ≤ tl)
    (hexc : ¬ (max p t - min p t = 1 ∧
      Stepper.compute_inital_delay sv ma = Stepper.compute_cruise_delay ms)) :
    ∃ (pm : PlannedMove) (dirR : Direction),
      (homedStepper tl ms ma sv dth p).planned_move t = .ok (pm, dirR) ∧
      (∀ k, k < max p t - min p t → (pm.emitAt k).isSome = true) ∧
      (∀ k, max p t - min p t ≤ k → pm.emitAt k = none) ∧
      (∀ n, max p t - min p t ≤ n → (pm.stepN n).stepper.curent_pos = some t) := by
  obtain ⟨pm, dirR, hok, hsome, hnone, hpos, _⟩ := pm_master tl ms ma sv dth p t
    hwf hp ht hexc
  exact ⟨pm, dirR, hok, hsome, hnone, hpos⟩

/-- Claim C1, counterexample: with max_speed = 64, max_accel = 64,
start_vel = 63 (a well-formed configuration for which inital_delay =
cruise_delay = 15625 ticks), a move of distance 1 emits a second delay on
the second call instead of terminating after exactly one emitted delay. -/
theorem c1_counterexample :
    (max 0 1 - min 0 1 = 1) ∧
    WFConfig 2048 64 64 63 ∧
    ((homedStepper 2048 64 64 63 .Cw 0).planned_move 1).toOption.map
        (fun x => (x.1.emitAt 0, x.1.emitAt 1)) = some (some 15625, some 15625) :=
  ⟨by decide, by decide, by rw [homed_eval_cex]; decide⟩

theorem c1_planned_move_complete_witness :
    ∃ (pm : PlannedMove) (dirR : Direction),
      (homedStepper 2048 2048 225 64 .Cw 0).planned_move 3 = .ok (pm, dirR) ∧
      (∀ k, k < max 0 3 - min 0 3 → (pm.emitAt k).isSome = true) ∧
      (∀ k, max 0 3 - min 0 3 ≤ k → pm.emitAt k = none) ∧
      (∀ n, max 0 3 - min 0 3 ≤ n → (pm.stepN n).stepper.curent_pos = some 3) :=
  c1_planned_move_complete 2048 2048 225 64 .Cw 0 3 (by decide) (by decide)
    (by decide) (fun h => absurd h.1 (by decide))

/-- Claim C9, amended: for every well-formed configuration and in-range
target, except a distance-1 move with inital_delay = cruise_delay, whenever
the PlannedMove iterator is in the Cruise phase it holds at least one
remaining step, so the unguarded u32 decrement in the Cruise arm does not
underflow.  In the excepted configuration the Accelerate arm transitions to
Cruise on the very iteration that consumes the last step (see the
counterexample), and the next Cruise call underflows. -/
theorem c9_cruise_no_underflow (tl ms ma sv : Nat) (dth : Direction) (p t : Nat)
    (hwf : WFConfig tl ms ma sv) (hp : p ≤ U32_MAX) (ht : t ≤ tl)
    (hexc : ¬ (max p t - min p t = 1 ∧
      Stepper.compute_inital_delay sv ma = Stepper.compute_cruise_delay ms)) :
    ∃ (pm : PlannedMove) (dirR : Direction),
      (homedStepper tl ms ma sv dth p).planned_move t = .ok (pm, dirR) ∧
      (∀ n, (pm.stepN n).phase = .Cruise → 1 ≤ (pm.stepN n).steps_to_travel) := by
  obtain ⟨pm, dirR, hok, _, _, _, hcru⟩ := pm_master tl ms ma sv dth p t
    hwf hp ht hexc
  exact ⟨pm, dirR, hok, hcru⟩

/-- Claim C9, counterexample: with max_speed = 64, max_accel = 64,
start_vel = 63, a distance-1 move reaches the Cruise phase with
steps_to_travel = 0 after one call (the Accelerate-to-Cruise transition
fired on the iteration that consumed the last step, overriding the
Decelerate transition), and the next call wraps steps_to_travel around to
2 ^ 32 - 1 - the u32 decrement underflows. -/
theorem c9_counterexample :
    WFConfig 2048 64 64 63 ∧
    ((homedStepper 2048 64 64 63 .Cw 0).planned_move 1).toOption.map
        (fun x => ((x.1.stepN 1).phase, (x.1.stepN 1).steps_to_travel,
                   (x.1.stepN 2).steps_to_travel)) =
      some (Phase.Cruise, 0, 2 ^ 32 - 1) :=
  ⟨by decide, by rw [homed_eval_cex]; decide⟩

theorem c9_cruise_no_underflow_witness :
    ∃ (pm : PlannedMove) (dirR : Direction),
      (homedStepper 2048 2048 225 64 .Cw 0).planned_move 3 = .ok (pm, dirR) ∧
      (∀ n, (pm.stepN n).phase = .Cruise → 1 ≤ (pm.stepN n).steps_to_travel) :=
  c9_cruise_no_underflow 2048 2048 225 64 .Cw 0 3 (by decide) (by decide)
    (by decide) (fun h => absurd h.1 (by decide))

/-- Claim C2: for every configuration whose velocity envelope is nonempty
(inital_delay at least cruise_delay, which well-formedness per the spec
guarantees) and every successfully planned move, every delay the iterator
ever emits - in the Accelerate, Cruise and Decelerate phases alike - lies
between cruise_delay and inital_delay. -/
theorem c2_delay_envelope (tl ms ma sv : Nat) (dth : Direction) (p t : Nat)
    (pm : PlannedMove) (dirR : Direction)
    (henv : Stepper.compute_cruise_delay ms ≤ Stepper.compute_inital_delay sv ma)
    (hok : (homedStepper tl ms ma sv dth p).planned_move t = .ok (pm, dirR))
    (n d : Nat) (hd : pm.emitAt n = some d) :
    Stepper.compute_cruise_delay ms ≤ d ∧
      d ≤ Stepper.compute_inital_delay sv ma := by
  obtain ⟨p', hpos, ht', hdir, hpm⟩ := planned_move_ok_elim _ _ _ _ hok
  have h0 : PMDelayInv (homedStepper tl ms ma sv dth p) pm := by
    rw [hpm]
    exact ⟨rfl, rfl, rfl, by intro hc; simp at hc⟩
  have hn := pm_delay_inv_stepN _ _ h0 n
  exact pm_delay_emit _ _ hn henv d hd

theorem c2_delay_envelope_witness :
    Stepper.compute_cruise_delay 255 ≤ 19607 ∧
      19607 ≤ Stepper.compute_inital_delay 50 64 :=
  c2_delay_envelope 2048 255 64 50 .Cw 0 5
    { stepper := { travel_limit := 2048, max_speed := 255, max_accel := 64,
                   start_vel := 50, dir_to_home := .Cw, curent_pos := some 0,
                   max_stopping_distance := 488, cruise_delay := 3922,
                   accel_divisor := 15625000000, inital_delay := 19607 }
      phase := .Accelerate
      prev_delay := U64_MAX
      dir := .Cw
      stopping_distance := 5
      steps_to_travel := 5
      rem := 0 }
    .Cw
    (by
      have hsq : Nat.sqrt 2628 = 51 := (Nat.eq_sqrt.mpr (by norm_num)).symm
      have hidl : Stepper.compute_inital_delay 50 64 = 19607 := by
        rw [Stepper.compute_inital_delay, tick_eq]
        norm_num [hsq]
      have hcd : Stepper.compute_cruise_delay 255 = 3922 := by decide
      rw [hidl, hcd]
      norm_num)
    (by rw [homed_eval_test]; decide)
    0 19607 (by decide)

end Crabroll
